import Mathlib

/-!
Verification of the throttled latest-value consumer (`src/rust/src/main.rs`).

The program pairs a single-slot, last-write-wins watch channel with a consumer
loop (`throttled_receiver`) that waits for a change, records the value with its
send and read timestamps, then sleeps for a fixed throttle interval before
waiting again.  The test `throttle_outputs_expected_messages` drives the loop
with nine timed sends inside a `select!` race against the producer.

We embed the system as a deterministic discrete-time model: elapsed time is a
natural number of milliseconds, a producer schedule is a list of
`(time, message)` sends (sorted by time, as the test asserts with
`pairs.is_sorted()`), and each send lands exactly at its scheduled time (the
ideal semantics; the real test tolerates ±20ms of scheduler jitter around it).
The channel contents at time `t` are obtained by replaying every send that has
happened by `t` over the initial value; the receiver tracks how many sends it
has observed, and `rx.changed()` resolves as soon as at least one unobserved
send exists.
-/

namespace ThrottledReceiver

/-- A producer send `(time in ms, message)`, mirroring one entry of the
`pairs` array of the test driver. -/
abbrev Send := Nat × String

/-- A processed record `(msg, sent_at, read_at)`, mirroring one entry of the
`Vec<(String, u128, u128)>` that `throttled_receiver` pushes into. -/
abbrev Record := String × Nat × Nat

/-- One send overwriting the watch-channel slot, as seen at time `t`: a send
that has happened by `t` replaces the stored `(msg, sent_at)` pair
unconditionally (`tx.send((msg.to_string(), elapsed))`); a send that has not
yet happened leaves the slot alone. -/
def applySend (t : Nat) (slot : String × Nat) (s : Send) : String × Nat :=
  if s.1 ≤ t then (s.2, s.1) else slot

/-- The `(msg, sent_at)` pair stored in the watch channel at time `t`: the
initial value `("", 0)` from `watch::channel(("".to_string(), 0u128))`,
overwritten in order by every send that has happened by `t`.  This is what
`rx.borrow().clone()` returns at time `t`. -/
def channelAt (sends : List Send) (t : Nat) : String × Nat :=
  sends.foldl (applySend t) ("", 0)

/-- The channel version at time `t`: how many sends have happened by `t`.
`rx.changed()` resolves exactly when the version exceeds the receiver's last
observed version, and observing marks the whole version as seen. -/
def versionAt (sends : List Send) (t : Nat) : Nat :=
  sends.countP (fun s => decide (s.1 ≤ t))

/-- State of the consumer loop between iterations: `waitFrom` is the elapsed
time at which the current `rx.changed()` wait began (loop start, or end of the
previous throttle sleep), `seen` is the receiver's observed version, and
`output` is the caller-owned `Vec` the loop pushes records into. -/
structure LoopState where
  waitFrom : Nat
  seen : Nat
  output : List Record
deriving DecidableEq

/-- The record pushed by the loop body at wake time `r`: lines 110–112 read
`read_at`, clone `(msg, sent_at)` out of `rx.borrow()`, and push the triple
`(msg, sent_at, read_at)`. -/
def recordAt (sends : List Send) (r : Nat) : Record :=
  ((channelAt sends r).1, (channelAt sends r).2, r)

/-- One iteration of the loop body of `throttled_receiver`: if an unobserved
send exists, `rx.changed()` resolves at its time (or immediately, if it
already happened during the sleep); the loop records
`(msg, sent_at, read_at)` from `rx.borrow()` at the wake time, pushes it, and
sleeps `T` ms.  With no unobserved send the loop stays parked on
`rx.changed()` (`none`). -/
def receiverStep (sends : List Send) (T : Nat) (st : LoopState) :
    Option LoopState :=
  if h : st.seen < sends.length then
    some { waitFrom := max st.waitFrom (sends.get ⟨st.seen, h⟩).1 + T
           seen := versionAt sends (max st.waitFrom (sends.get ⟨st.seen, h⟩).1)
           output := st.output ++
             [recordAt sends (max st.waitFrom (sends.get ⟨st.seen, h⟩).1)] }
  else none

/-- Run the consumer loop for at most `fuel` iterations; once every send has
been observed the loop parks forever on `rx.changed()` (it is cancelled
externally in the test), so `fuel ≥ sends.length` exhausts every iteration
that performs an action. -/
def throttled_receiver (sends : List Send) (T : Nat) :
    Nat → LoopState → LoopState
  | 0, st => st
  | fuel+1, st =>
    match receiverStep sends T st with
    | none => st
    | some st₂ => throttled_receiver sends T fuel st₂

/-- The records appended by the consumer loop from a wait starting at time `w`
with `seen` sends already observed: the forward-list form of
`throttled_receiver`. -/
def produced (sends : List Send) (T : Nat) : Nat → Nat → Nat → List Record
  | 0, _, _ => []
  | fuel+1, w, seen =>
    if h : seen < sends.length then
      recordAt sends (max w (sends.get ⟨seen, h⟩).1) ::
        produced sends T fuel (max w (sends.get ⟨seen, h⟩).1 + T)
          (versionAt sends (max w (sends.get ⟨seen, h⟩).1))
    else []

/-- The throttle interval `THROTTLE_MS = 1000` of `throttled_receiver`. -/
def THROTTLE_MS : Nat := 1000

/-- The scheduling tolerance `TOLERANCE_MS = 20` of the test assertions. -/
def TOLERANCE_MS : Nat := 20

/-- `assert_within_tolerance`: the absolute difference between actual and
expected is at most `TOLERANCE_MS`. -/
def assert_within_tolerance (actual expected : Nat) : Bool :=
  decide (((actual : Int) - (expected : Int)).natAbs ≤ TOLERANCE_MS)

/-- The `pairs` array of `(time, msg)` sends of the test driver. -/
def pairs : List Send :=
  [(0, "a"), (600, "b"), (1200, "c"), (1800, "d"), (2050, "e"),
   (2075, "f"), (2100, "g"), (2150, "h"), (2200, "i")]

/-- The `expected` records of the test: `(msg, sent_at, read_at)`. -/
def expected : List Record :=
  [("a", 0, 0), ("b", 600, 1000), ("d", 1800, 2000), ("i", 2200, 3000)]

/-- `wrap_up_time = pairs.last().unwrap().0 + 1100`. -/
def wrap_up_time : Nat := (pairs.getLastD (0, "")).1 + 1100

/-- The elapsed time at which the producer arm of the `select!` completes: the
last send at 2200ms followed by the `wrap_up_time` sleep.  When it completes,
`select!` returns and the receiver arm is cancelled. -/
def cancel_time : Nat := (pairs.getLastD (0, "")).1 + wrap_up_time

/-- Whether the `.unwrap()` on `rx.changed()` ever panics when the loop is
driven by the test's `select!`: the receiver arm is cancelled at elapsed time
`cancelT` (an event at exactly `cancelT` is not observed, since `select!`
returns when the producer arm completes without polling the receiver again),
and a parked `rx.changed()` resolves with `Err(ChannelClosed)` once the sender
is dropped at time `closeT` (a wait with an unobserved send still resolves
`Ok`, as the watch channel checks the version before the sender). -/
def unwrapPanics (sends : List Send) (T cancelT closeT : Nat) :
    Nat → Nat → Nat → Bool
  | 0, _, _ => false
  | fuel+1, w, seen =>
    if h : seen < sends.length then
      let r := max w (sends.get ⟨seen, h⟩).1
      if r < cancelT then
        unwrapPanics sends T cancelT closeT fuel (r + T) (versionAt sends r)
      else false
    else decide (max w closeT < cancelT)

/-- The result of awaiting `rx.changed()`: either the value changed (`Ok`) or
the sender side is gone (`Err(RecvError)`, the channel is closed). -/
inductive ChangedResult where
  | ok : ChangedResult
  | channelClosed : ChangedResult
deriving DecidableEq

/-- What the consumer loop does with a `rx.changed()` result: proceed with the
loop body, panic the task, or exit the loop as a normal completion. -/
inductive BranchAction where
  | proceed : BranchAction
  | panicked : BranchAction
  | cleanExit : BranchAction
deriving DecidableEq

/-- Embeds `rx.changed().await.unwrap()` (line 106): on `Ok` the loop body
proceeds; on `Err` — the channel closed — `.unwrap()` panics the task. -/
def unwrapChanged : ChangedResult → BranchAction
  | ChangedResult.ok => BranchAction.proceed
  | ChangedResult.channelClosed => BranchAction.panicked

/-- Sorted with strictly increasing send times, as the timestamps of the
test's `pairs` array are (the driver asserts `pairs.is_sorted()` and sleeps a
positive duration between consecutive sends). -/
abbrev StrictlySorted (sends : List Send) : Prop :=
  List.Pairwise (fun a b : Send => a.1 < b.1) sends

/-- The running output of `throttled_receiver` equals the previously
accumulated output followed by the records of `produced`. -/
theorem throttled_receiver_output (sends : List Send) (T : Nat) :
    ∀ (fuel : Nat) (st : LoopState),
      (throttled_receiver sends T fuel st).output =
        st.output ++ produced sends T fuel st.waitFrom st.seen := by
  intro fuel
  induction fuel with
  | zero => intro st; simp [throttled_receiver, produced]
  | succ n ih =>
    intro st
    rw [throttled_receiver, receiverStep, produced]
    by_cases h : st.seen < sends.length
    · rw [dif_pos h, dif_pos h]
      rw [ih]
      simp
    · rw [dif_neg h, dif_neg h]
      simp

/-- The stored `sent_at` never exceeds the observation time: every overwrite
of the slot up to time `t` carries a timestamp at most `t`, and the initial
value carries timestamp `0`. -/
theorem channelAt_time_le (sends : List Send) (t : Nat) :
    (channelAt sends t).2 ≤ t := by
  have key : ∀ (l : List Send) (slot : String × Nat), slot.2 ≤ t →
      (l.foldl (applySend t) slot).2 ≤ t := by
    intro l
    induction l with
    | nil => intro slot h; simpa using h
    | cons a l ih =>
      intro slot h
      rw [List.foldl_cons]
      apply ih
      rw [applySend]
      split
      · next hc => simpa using hc
      · exact h
  exact key sends ("", 0) (Nat.zero_le t)

/-- Replaying sends over a slot either leaves the slot or ends with one of the
replayed sends that had happened by `t`. -/
theorem foldl_applySend_shape (t : Nat) :
    ∀ (l : List Send) (slot : String × Nat),
      l.foldl (applySend t) slot = slot ∨
      ∃ s ∈ l, l.foldl (applySend t) slot = (s.2, s.1) ∧ s.1 ≤ t := by
  intro l
  induction l with
  | nil => intro slot; left; rfl
  | cons a l ih =>
    intro slot
    rw [List.foldl_cons]
    rcases ih (applySend t slot a) with h | ⟨s, hs, h, hle⟩
    · rw [h, applySend]
      split
      · next hc => right; exact ⟨a, by simp, rfl, hc⟩
      · left; rfl
    · right; exact ⟨s, by simp [hs], h, hle⟩

/-- For a schedule with strictly increasing send times, the slot at time `t`
is at least as new as any send that has happened by `t`. -/
theorem foldl_applySend_latest (t : Nat) :
    ∀ (l : List Send), List.Pairwise (fun a b : Send => a.1 < b.1) l →
      ∀ (slot : String × Nat), ∀ s ∈ l, s.1 ≤ t →
        s.1 ≤ (l.foldl (applySend t) slot).2 := by
  intro l
  induction l with
  | nil => intro _ slot s hs; simp at hs
  | cons a l ih =>
    intro hp slot s hs hle
    rw [List.foldl_cons]
    rcases List.mem_cons.mp hs with rfl | hmem
    · have ha : applySend t slot s = (s.2, s.1) := by simp [applySend, hle]
      rw [ha]
      rcases foldl_applySend_shape t l (s.2, s.1) with h | ⟨b, hb, h, _⟩
      · rw [h]
      · rw [h]
        have : s.1 < b.1 := (List.pairwise_cons.mp hp).1 b hb
        omega
    · exact ih (List.pairwise_cons.mp hp).2 (applySend t slot a) s hmem hle

/-- The channel at time `t` holds a value at least as new as any send that
has happened by `t` (strictly sorted schedule). -/
theorem channelAt_latest (sends : List Send) (hs : StrictlySorted sends)
    (t : Nat) : ∀ s ∈ sends, s.1 ≤ t → s.1 ≤ (channelAt sends t).2 :=
  fun s hmem hle => foldl_applySend_latest t sends hs ("", 0) s hmem hle

/-- Once the last send has happened, the channel holds exactly it. -/
theorem channelAt_getLast (sends : List Send) (hne : sends ≠ []) (t : Nat)
    (h : (sends.getLast hne).1 ≤ t) :
    channelAt sends t = ((sends.getLast hne).2, (sends.getLast hne).1) := by
  conv_lhs => rw [channelAt, ← List.dropLast_append_getLast hne]
  rw [List.foldl_append]
  simp [applySend, h]

/-- If the send at index `k` has happened by `t`, then at least `k + 1` sends
have happened by `t` (strictly sorted schedule). -/
theorem countP_ge_of_get (t : Nat) :
    ∀ (l : List Send), List.Pairwise (fun a b : Send => a.1 < b.1) l →
      ∀ (k : Nat) (hk : k < l.length), (l.get ⟨k, hk⟩).1 ≤ t →
        k + 1 ≤ versionAt l t := by
  intro l
  induction l with
  | nil => intro _ k hk hle; simp at hk
  | cons a l ih =>
    intro hp k hk hle
    rw [versionAt, List.countP_cons]
    cases k with
    | zero =>
      have ha : decide (a.1 ≤ t) = true := by simpa using hle
      simp only [ha]
      simp
    | succ j =>
      have hj : j < l.length := by simpa using hk
      have hgl : (l.get ⟨j, hj⟩).1 ≤ t := by simpa using hle
      have hrec := ih (List.pairwise_cons.mp hp).2 j hj hgl
      rw [versionAt] at hrec
      have ha : a.1 ≤ t := by
        have hmem : l.get ⟨j, hj⟩ ∈ l := List.get_mem l j hj
        have := (List.pairwise_cons.mp hp).1 _ hmem
        omega
      have ha2 : decide (a.1 ≤ t) = true := by simpa using ha
      simp only [ha2]
      simp
      omega

/-- Every send time is at most the last send's time (strictly sorted). -/
theorem le_getLast_of_mem :
    ∀ (l : List Send), List.Pairwise (fun a b : Send => a.1 < b.1) l →
      ∀ (hne : l ≠ []), ∀ s ∈ l, s.1 ≤ (l.getLast hne).1 := by
  intro l
  induction l with
  | nil => intro _ hne; exact absurd rfl hne
  | cons a l ih =>
    intro hp hne s hs
    cases l with
    | nil =>
      rcases List.mem_cons.mp hs with rfl | hmem
      · simp [List.getLast]
      · simp at hmem
    | cons b l2 =>
      rw [List.getLast_cons (l := b :: l2) (by simp)]
      rcases List.mem_cons.mp hs with rfl | hmem
      · have hmem2 : (b :: l2).getLast (by simp) ∈ b :: l2 :=
          List.getLast_mem (by simp)
        have := (List.pairwise_cons.mp hp).1 _ hmem2
        omega
      · exact ih (List.pairwise_cons.mp hp).2 (by simp) s hmem

/-- If not every send has happened by `t`, the last send has not. -/
theorem last_send_after (sends : List Send) (hne : sends ≠ [])
    (hs : StrictlySorted sends) (t : Nat)
    (hv : versionAt sends t < sends.length) : t < (sends.getLast hne).1 := by
  by_contra hc
  push_neg at hc
  have hall : ∀ s ∈ sends, (fun s : Send => decide (s.1 ≤ t)) s = true := by
    intro s hsmem
    have h1 : s.1 ≤ (sends.getLast hne).1 := le_getLast_of_mem sends hs hne s hsmem
    simp
    omega
  have := List.countP_eq_length.mpr hall
  rw [versionAt] at hv
  omega

/-- If every send has happened by `t`, the last one has. -/
theorem getLast_le_of_versionAt_full (sends : List Send) (hne : sends ≠ [])
    (t : Nat) (hv : versionAt sends t = sends.length) :
    (sends.getLast hne).1 ≤ t := by
  rw [versionAt] at hv
  have := List.countP_eq_length.mp hv _ (List.getLast_mem hne)
  simpa using this

/-- With every send observed, the loop appends nothing further. -/
theorem produced_of_seen_ge (sends : List Send) (T : Nat)
    (fuel w seen : Nat) (h : sends.length ≤ seen) :
    produced sends T fuel w seen = [] := by
  cases fuel with
  | zero => rfl
  | succ n => rw [produced, dif_neg (by omega)]

/-- The first record of a run that begins waiting at time `w` is read no
earlier than `w`. -/
theorem produced_head_read (sends : List Send) (T : Nat) (fuel w seen : Nat)
    (rec : Record) (h : (produced sends T fuel w seen).head? = some rec) :
    w ≤ rec.2.2 := by
  cases fuel with
  | zero => simp [produced] at h
  | succ n =>
    rw [produced] at h
    by_cases hlt : seen < sends.length
    · rw [dif_pos hlt] at h
      rw [List.head?_cons] at h
      have : recordAt sends (max w (sends.get ⟨seen, hlt⟩).1) = rec :=
        Option.some.inj h
      rw [← this, recordAt]
      exact le_max_left _ _
    · rw [dif_neg hlt] at h
      simp at h

/-- Consecutive records are read at least `T` apart. -/
theorem produced_read_chain (sends : List Send) (T : Nat) :
    ∀ (fuel w seen : Nat),
      List.Chain' (fun a b : Record => a.2.2 + T ≤ b.2.2)
        (produced sends T fuel w seen) := by
  intro fuel
  induction fuel with
  | zero => intro w seen; simp [produced]
  | succ n ih =>
    intro w seen
    rw [produced]
    by_cases hlt : seen < sends.length
    · rw [dif_pos hlt]
      refine List.chain'_cons'.mpr ⟨?_, ih _ _⟩
      intro rec hrec
      have hw := produced_head_read sends T n _ _ rec hrec
      exact hw
    · rw [dif_neg hlt]
      simp

/-- Every record is read no earlier than it was sent. -/
theorem produced_sent_le_read (sends : List Send) (T : Nat) :
    ∀ (fuel w seen : Nat), ∀ rec ∈ produced sends T fuel w seen,
      rec.2.1 ≤ rec.2.2 := by
  intro fuel
  induction fuel with
  | zero => intro w seen rec hrec; simp [produced] at hrec
  | succ n ih =>
    intro w seen rec hrec
    rw [produced] at hrec
    by_cases hlt : seen < sends.length
    · rw [dif_pos hlt] at hrec
      rcases List.mem_cons.mp hrec with rfl | hmem
      · exact channelAt_time_le sends _
      · exact ih _ _ rec hmem
    · rw [dif_neg hlt] at hrec
      simp at hrec

/-- Every record of the loop carries exactly the channel contents at its own
read time, and (for a strictly sorted schedule) no send that had happened by
the read time is newer than the recorded one. -/
theorem produced_fresh (sends : List Send) (T : Nat)
    (hs : StrictlySorted sends) :
    ∀ (fuel w seen : Nat), ∀ rec ∈ produced sends T fuel w seen,
      (rec.1, rec.2.1) = channelAt sends rec.2.2 ∧
      ∀ s ∈ sends, s.1 ≤ rec.2.2 → s.1 ≤ rec.2.1 := by
  intro fuel
  induction fuel with
  | zero => intro w seen rec hrec; simp [produced] at hrec
  | succ n ih =>
    intro w seen rec hrec
    rw [produced] at hrec
    by_cases hlt : seen < sends.length
    · rw [dif_pos hlt] at hrec
      rcases List.mem_cons.mp hrec with rfl | hmem
      · constructor
        · rfl
        · intro s hsmem hle
          exact channelAt_latest sends hs _ s hsmem hle
      · exact ih _ _ rec hmem
    · rw [dif_neg hlt] at hrec
      simp at hrec

/-- The run starting with `seen` observed sends and enough fuel ends with a
record holding the last send, and holds exactly one record whose `sent_at` is
the last send's timestamp. -/
theorem trailing_flush_aux (sends : List Send) (T : Nat)
    (hs : StrictlySorted sends) (hne : sends ≠ []) :
    ∀ (fuel seen w : Nat), seen < sends.length →
      sends.length - seen ≤ fuel →
      (∃ r, (produced sends T fuel w seen).getLast? =
          some ((sends.getLast hne).2, (sends.getLast hne).1, r)) ∧
      (produced sends T fuel w seen).countP
        (fun rec => decide (rec.2.1 = (sends.getLast hne).1)) = 1 := by
  intro fuel
  induction fuel with
  | zero => intro seen w h1 h2; omega
  | succ n ih =>
    intro seen w h1 h2
    rw [produced, dif_pos h1]
    by_cases hfull :
        versionAt sends (max w (sends.get ⟨seen, h1⟩).1) = sends.length
    · have htail : produced sends T n (max w (sends.get ⟨seen, h1⟩).1 + T)
          (versionAt sends (max w (sends.get ⟨seen, h1⟩).1)) = [] :=
        produced_of_seen_ge _ _ _ _ _ (by omega)
      rw [htail]
      have hlast : channelAt sends (max w (sends.get ⟨seen, h1⟩).1) =
          ((sends.getLast hne).2, (sends.getLast hne).1) :=
        channelAt_getLast sends hne _
          (getLast_le_of_versionAt_full sends hne _ hfull)
      constructor
      · exact ⟨max w (sends.get ⟨seen, h1⟩).1, by rw [recordAt, hlast]; simp⟩
      · rw [recordAt, hlast]
        simp
    · have hv1 : seen + 1 ≤ versionAt sends (max w (sends.get ⟨seen, h1⟩).1) :=
        countP_ge_of_get _ sends hs seen h1 (le_max_right _ _)
      have hv2 : versionAt sends (max w (sends.get ⟨seen, h1⟩).1) ≤
          sends.length := List.countP_le_length _
      have hvlt : versionAt sends (max w (sends.get ⟨seen, h1⟩).1) <
          sends.length := lt_of_le_of_ne hv2 hfull
      obtain ⟨⟨r2, hA⟩, hB⟩ := ih _ (max w (sends.get ⟨seen, h1⟩).1 + T) hvlt
        (by omega)
      have htne : produced sends T n (max w (sends.get ⟨seen, h1⟩).1 + T)
          (versionAt sends (max w (sends.get ⟨seen, h1⟩).1)) ≠ [] := by
        intro hemp
        rw [hemp] at hA
        simp at hA
      obtain ⟨c, restl, hcr⟩ := List.exists_cons_of_ne_nil htne
      constructor
      · refine ⟨r2, ?_⟩
        rw [hcr, List.getLast?_cons_cons, ← hcr, hA]
      · rw [List.countP_cons]
        have hlt2 : (recordAt sends (max w (sends.get ⟨seen, h1⟩).1)).2.1 <
            (sends.getLast hne).1 := by
          have h3 := channelAt_time_le sends (max w (sends.get ⟨seen, h1⟩).1)
          have h4 := last_send_after sends hne hs _ hvlt
          calc (recordAt sends (max w (sends.get ⟨seen, h1⟩).1)).2.1
              = (channelAt sends (max w (sends.get ⟨seen, h1⟩).1)).2 := rfl
            _ ≤ max w (sends.get ⟨seen, h1⟩).1 := h3
            _ < (sends.getLast hne).1 := h4
        have hdec : decide ((recordAt sends
            (max w (sends.get ⟨seen, h1⟩).1)).2.1 =
            (sends.getLast hne).1) = false := by
          simp only [decide_eq_false_iff_not]
          omega
        rw [hdec, hB]
        simp

/-- C1: with throttle interval 1000ms and sends a@0, b@600, c@1200, d@1800,
e@2050, f@2075, g@2100, h@2150, i@2200 followed by silence, the consumer loop
produces exactly four records, in order (a,0,0), (b,600,1000), (d,1800,2000),
(i,2200,3000) — in the ideal model each read time equals its expected value
exactly, hence in particular lies within the scheduling tolerance. -/
theorem throttle_concrete_scenario :
    produced pairs THROTTLE_MS pairs.length 0 0 = expected ∧
    (List.zip (produced pairs THROTTLE_MS pairs.length 0 0) expected).all
      (fun p => p.1.1 == p.2.1 && assert_within_tolerance p.1.2.1 p.2.2.1 &&
        assert_within_tolerance p.1.2.2 p.2.2.2) = true := by
  constructor <;> decide

/-- C2 (counterexample): the claim says that when `wait_for_change` fails with
`ChannelClosed` the consumer loop exits cleanly as a normal completion; but
the loop body is `rx.changed().await.unwrap()`, which on that result panics
the task instead of exiting cleanly. -/
theorem channel_closed_not_clean_exit :
    unwrapChanged ChangedResult.channelClosed ≠ BranchAction.cleanExit := by
  decide

/-- C2 (amended): when `wait_for_change` fails with `ChannelClosed`, the
consumer loop terminates abnormally by panicking via the `unwrap`, not by
surfacing a normal completion to its caller. -/
theorem channel_closed_panics :
    unwrapChanged ChangedResult.channelClosed = BranchAction.panicked := rfl

/-- C5: for any two consecutive records of the consumer loop, the later one is
read at least `T` after the earlier one (in the ideal model, exactly the
claimed spacing with zero jitter); the first record carries no prior throttle
debt, being constrained only by the sends themselves. -/
theorem throttle_spacing (sends : List Send) (T fuel : Nat) :
    List.Chain' (fun a b : Record => a.2.2 + T ≤ b.2.2)
      (produced sends T fuel 0 0) :=
  produced_read_chain sends T fuel 0 0

/-- C7: every record appended by the consumer loop has `read_at >= sent_at`:
the value in the slot at the wake time was put there by a send that had
already happened (or is the initial value with timestamp 0). -/
theorem read_at_ge_sent_at (sends : List Send) (T fuel : Nat) (rec : Record)
    (h : rec ∈ produced sends T fuel 0 0) : rec.2.1 ≤ rec.2.2 :=
  produced_sent_le_read sends T fuel 0 0 rec h

/-- Witness for C7 at the test scenario: record `("b", 600, 1000)`. -/
theorem read_at_ge_sent_at_witness : (600 : Nat) ≤ 1000 :=
  read_at_ge_sent_at pairs THROTTLE_MS 9 ("b", 600, 1000) (by decide)

/-- C8: the `read_at` values of the consumer loop's records are non-decreasing
in append order. -/
theorem monotonic_read_order (sends : List Send) (T fuel : Nat) :
    List.Chain' (fun a b : Record => a.2.2 ≤ b.2.2)
      (produced sends T fuel 0 0) :=
  List.Chain'.imp (fun a b hab => by omega)
    (produced_read_chain sends T fuel 0 0)

/-- C9: each iteration of the consumer loop appends exactly one record to the
caller-owned output and leaves all previously appended records unchanged. -/
theorem loop_appends_single_record (sends : List Send) (T : Nat)
    (st st₂ : LoopState) (h : receiverStep sends T st = some st₂) :
    ∃ rec : Record, st₂.output = st.output ++ [rec] ∧
      st₂.output.length = st.output.length + 1 ∧
      st₂.output.take st.output.length = st.output := by
  rw [receiverStep] at h
  by_cases hlt : st.seen < sends.length
  · rw [dif_pos hlt] at h
    have h2 := Option.some.inj h
    refine ⟨recordAt sends (max st.waitFrom (sends.get ⟨st.seen, hlt⟩).1), ?_, ?_, ?_⟩
    · rw [← h2]
    · rw [← h2]; simp
    · rw [← h2]; simp
  · rw [dif_neg hlt] at h
    exact absurd h (by simp)

/-- Witness for C9: the first iteration of the test scenario appends exactly
the record `("a", 0, 0)` to the empty output. -/
theorem loop_appends_single_record_witness :
    ∃ rec : Record,
      (LoopState.mk 1000 1 [("a", 0, 0)]).output =
        (LoopState.mk 0 0 []).output ++ [rec] ∧
      (LoopState.mk 1000 1 [("a", 0, 0)]).output.length =
        (LoopState.mk 0 0 []).output.length + 1 ∧
      (LoopState.mk 1000 1 [("a", 0, 0)]).output.take
        (LoopState.mk 0 0 []).output.length = (LoopState.mk 0 0 []).output :=
  loop_appends_single_record pairs THROTTLE_MS
    (LoopState.mk 0 0 []) (LoopState.mk 1000 1 [("a", 0, 0)]) (by decide)

/-- C10: in the provided test driver the panic-on-error branch of the loop is
unreachable: whatever the time `closeT ≥ cancel_time` at which the sender is
finally dropped (it lives at least until the producer arm of the `select!`
completes, wrap-up sleep included), the receiver never observes
`ChannelClosed` — it is cancelled externally at `cancel_time`, before any
parked wait could resolve with the closed-channel error. -/
theorem no_channel_closed_in_driver (closeT : Nat)
    (h : cancel_time ≤ closeT) :
    unwrapPanics pairs THROTTLE_MS cancel_time closeT pairs.length 0 0 =
      false := by
  have hred : unwrapPanics pairs THROTTLE_MS cancel_time closeT pairs.length 0 0 =
      decide (max 4000 closeT < cancel_time) := rfl
  rw [hred]
  have hct : cancel_time = 5500 := rfl
  simp only [decide_eq_false_iff_not]
  omega

/-- Witness for C10: the sender dropped exactly when the `select!` resolves. -/
theorem no_channel_closed_in_driver_witness :
    unwrapPanics pairs THROTTLE_MS cancel_time cancel_time pairs.length 0 0 =
      false :=
  no_channel_closed_in_driver cancel_time (by decide)

/-- C3: freshness — every record of the consumer loop carries exactly the
channel contents as of its own `read_at`, and no send that had happened by
`read_at` is newer than the recorded `sent_at`: no record reflects a value
already overwritten before its `read_at`. -/
theorem freshness (sends : List Send) (T fuel : Nat)
    (hs : StrictlySorted sends) (rec : Record)
    (hrec : rec ∈ produced sends T fuel 0 0) :
    (rec.1, rec.2.1) = channelAt sends rec.2.2 ∧
    ∀ s ∈ sends, s.1 ≤ rec.2.2 → s.1 ≤ rec.2.1 :=
  produced_fresh sends T hs fuel 0 0 rec hrec

/-- Witness for C3 at the test scenario: the record `("b", 600, 1000)` holds
exactly the channel contents at 1000ms. -/
theorem freshness_witness : ("b", 600) = channelAt pairs 1000 :=
  (freshness pairs THROTTLE_MS 9 (by decide) ("b", 600, 1000) (by decide)).1

/-- C4: trailing flush — once the producer stops, the consumer still processes
the last sent value exactly once: a full-fuel run ends with a record holding
the last send, exactly one record carries its timestamp, and nothing follows
that record. -/
theorem trailing_flush (sends : List Send) (T fuel : Nat)
    (hs : StrictlySorted sends) (hne : sends ≠ [])
    (hfuel : sends.length ≤ fuel) :
    (∃ r, (produced sends T fuel 0 0).getLast? =
        some ((sends.getLast hne).2, (sends.getLast hne).1, r)) ∧
    (produced sends T fuel 0 0).countP
      (fun rec => decide (rec.2.1 = (sends.getLast hne).1)) = 1 :=
  trailing_flush_aux sends T hs hne fuel 0 0 (List.length_pos.mpr hne)
    (by omega)

/-- Witness for C4 at the test scenario: the final send `i@2200` is recorded
exactly once. -/
theorem trailing_flush_witness :
    (produced pairs THROTTLE_MS 9 0 0).countP
      (fun rec => decide (rec.2.1 = (pairs.getLast (by decide)).1)) = 1 :=
  (trailing_flush pairs THROTTLE_MS 9 (by decide) (by decide) (by decide)).2

/-- C6: last-write-wins coalescing — if two sends happen before the receiver
reads (both no later than the read time `t`, the first strictly earlier than
the second), the earlier value is lost: the read at `t` can never return the
earlier `(msg, sent_at)` pair. -/
theorem last_write_wins (sends : List Send) (hs : StrictlySorted sends)
    (s1 s2 : Send) (h1 : s1 ∈ sends) (h2 : s2 ∈ sends) (hlt : s1.1 < s2.1)
    (t : Nat) (ht : s2.1 ≤ t) : channelAt sends t ≠ (s1.2, s1.1) := by
  intro heq
  have hle := channelAt_latest sends hs t s2 h2 ht
  rw [heq] at hle
  simp at hle
  omega

/-- Witness for C6 at the test scenario: after `b@600`, a read at 700ms can no
longer return `a@0`. -/
theorem last_write_wins_witness : channelAt pairs 700 ≠ ("a", 0) :=
  last_write_wins pairs (by decide) (0, "a") (600, "b") (by decide) (by decide)
    (by decide) 700 (by decide)

end ThrottledReceiver
